import Mathlib

/-!
Verification of the DiscordCombatAI orchestration engine (modules/BattleHandler.py,
modules/utils.py, modules/PromptHandler.py, modules/AIHandler.py).

The Python code is shallowly embedded as executable Lean definitions:
  * the collection phase (FighterCreator / FighterModal.on_submit / _abort /
    get_fighters; the Environment and Strategy creators are structurally
    identical) becomes a transition system `PhaseState` / `stepE`;
  * the quick-battle session (QuickBattleRequest with its Join/Leave/Start/Abort
    buttons and the `__tick__` timer handler) becomes `SessionState` / `stepS`;
  * the message splitter `_split_content` becomes `splitContent`;
  * the tail of `_async_timeout` (save then broadcast) becomes
    `asyncTimeoutTail`;
  * `PromptHandler.evaluateSingle` becomes `evaluateSingle` over an abstract
    request record.
Member identities are `Nat`; Python strings that matter for control flow are
`List Char` so every definition is decidable and executable.
-/

/- ### Generation request construction (AIHandler.py 71-105, PromptHandler.py 87-89) -/

/-- The request `_generate_response_sync` hands to the AI backend: the user
prompt, an optional system instruction, and the temperature put into
`GenerateContentConfig`. -/
structure GenRequest where
  prompt : String
  systemInstruction : Option String
  temperature : ℚ
deriving DecidableEq

/-- `AIHandler._generate_response_sync` (AIHandler.py 71-105): builds the request
record from exactly its three arguments. -/
def generateRequestSync (prompt : String) (systemInstruction : Option String)
    (temperature : ℚ) : GenRequest :=
  { prompt := prompt, systemInstruction := systemInstruction, temperature := temperature }

/-- `PromptHandler.evaluateSingle` (PromptHandler.py 87-89): forwards the literal
`1.2` as temperature to `generate_response`, ignoring its own `temperature`
parameter. -/
def evaluateSingle (systemPrompt : String) (prompt : String)
    (temperature : ℚ) : GenRequest :=
  generateRequestSync prompt (some systemPrompt) (1.2 : ℚ)

/- ### Save-then-broadcast tail of the battle run
(BattleHandler.py 840-842 together with utils.py 98-106).

`save_battle_result` performs `os.makedirs` / `open` / `write` with no exception
handler, so a persistence failure raises.  `_async_timeout` then never reaches
the final `sendMessage` of the narrative; the exception is caught and logged by
`_async_timeout_complete` (752-760) or `_start_battle` (776-781).  The save step
is modelled as an `Except` value: `Except.ok` when the file write returns
normally, `Except.error` when it raises. -/

/-- Exception propagation in the tail of `_async_timeout`: run the save step;
only if it returns normally is the narrative broadcast (`true`) reached. -/
def asyncTimeoutTail (saveResult : Except String Unit) : Except String Bool :=
  match saveResult with
  | Except.ok _ => Except.ok true
  | Except.error e => Except.error e

/-- Whether the narrative is broadcast to the channel, as observed after the
callers' try/except (which logs the error and sends no narrative). -/
def narrativeBroadcast (saveResult : Except String Unit) : Bool :=
  match asyncTimeoutTail saveResult with
  | Except.ok b => b
  | Except.error _ => false

/-- Whether the save step returned normally. -/
def saveSucceeded (saveResult : Except String Unit) : Bool :=
  match saveResult with
  | Except.ok _ => true
  | Except.error _ => false

/- ### The quick-battle session (BattleHandler.py 541-801) -/

/-- The interactive controls `__update_ui` (726-736) installs on the request
message. -/
inductive Control where
  | join
  | leave
  | start
  | abortBtn
deriving DecidableEq

def allControls : List Control :=
  [Control.join, Control.leave, Control.start, Control.abortBtn]

/-- State of one `QuickBattleRequest` (647-671): owner, mutable participant
list, timeout, elapsed seconds, the `_timer_running` flag, the current view's
controls, and whether the session has handed off to phase sequencing
(`started`) or been aborted (`abortedS`). -/
structure SessionState where
  owner : Nat
  participants : List Nat
  timeout : Nat
  elapsed : Nat
  timerRunning : Bool
  ui : List Control
  started : Bool
  abortedS : Bool
deriving DecidableEq

/-- `QuickBattleRequest.__init__` plus `_async_initialize` (647-677):
participants start as `[owner]`, elapsed 0, timer running, full control set. -/
def initS (o T : Nat) : SessionState :=
  { owner := o, participants := [o], timeout := T, elapsed := 0,
    timerRunning := true, ui := allControls, started := false, abortedS := false }

/-- `JoinButton.callback` (546-558): if the user is not yet a participant,
append them and re-render the view (`__update_async__` reinstalls all four
controls); otherwise reply "already joined" and change nothing. -/
def joinCb (s : SessionState) (u : Nat) : SessionState :=
  if u ∈ s.participants then s
  else { s with participants := s.participants ++ [u], ui := allControls }

/-- `LeaveButton.callback` (566-578): if the user is a participant, remove them
(Python `list.remove` drops the first occurrence) and re-render; otherwise
change nothing.  There is no check that the leaver is not the owner or not the
last member. -/
def leaveCb (s : SessionState) (u : Nat) : SessionState :=
  if u ∈ s.participants then
    { s with participants := s.participants.erase u, ui := allControls }
  else s

/-- Externally triggered session events.  `tick` is the timer firing
(`__tick__`); the rest are button interactions, which can only be delivered
while the corresponding control is part of the current view. -/
inductive SEvent where
  | tick
  | join (u : Nat)
  | leave (u : Nat)
  | forceStart (u : Nat)
  | abortReq (u : Nat)
deriving DecidableEq

/-- One step of the session machine.
 * `tick` = `__tick__` (679-690): no-op unless `_timer_running`; increments
   elapsed; when elapsed reaches the timeout, `__timeout__` /
   `_async_timeout_complete` (738-758) stop the timer, clear the view and hand
   off to phase sequencing; otherwise the view is re-rendered.
 * `join` / `leave`: deliverable only while the button exists in the view.
 * `forceStart` = `StartButton.callback` + `_start_battle` (586-599, 762-781):
   owner only; stops the timer, clears the view, hands off.
 * `abortReq` = `AbortButton.callback` + `_abort_battle` (607-620, 782-802):
   owner only; stops the timer, clears the view, marks the session aborted. -/
def stepS (s : SessionState) : SEvent → SessionState
  | SEvent.tick =>
      if s.timerRunning then
        if s.timeout ≤ s.elapsed + 1 then
          { s with elapsed := s.elapsed + 1, timerRunning := false,
                   ui := [], started := true }
        else
          { s with elapsed := s.elapsed + 1, ui := allControls }
      else s
  | SEvent.join u => if Control.join ∈ s.ui then joinCb s u else s
  | SEvent.leave u => if Control.leave ∈ s.ui then leaveCb s u else s
  | SEvent.forceStart u =>
      if Control.start ∈ s.ui then
        if u = s.owner then
          { s with timerRunning := false, ui := [], started := true }
        else s
      else s
  | SEvent.abortReq u =>
      if Control.abortBtn ∈ s.ui then
        if u = s.owner then
          { s with timerRunning := false, ui := [], abortedS := true }
        else s
      else s

/-- Run a session from creation through a list of delivered events. -/
def runS (o T : Nat) (es : List SEvent) : SessionState :=
  es.foldl stepS (initS o T)

/- ### The collection phase (BattleHandler.py 198-365)

`FighterCreator` / `FighterModal` are embedded; `EnvironmentCreator` /
`EnvironmentModal` (368-539) and `StrategyCreator` / `StrategyModal` (42-196)
have the same structure and guards.  The ledger (the `submissions` dict, which
`on_submit` fills in lockstep with `fighters`) is an insertion-ordered
association list.  The `completed` `asyncio.Event` is the boolean `completedEv`;
`delivered` records the single resumption of `get_fighters` after the event is
set (`None` on abort, the ledger otherwise). -/

/-- Python `str.strip()` on the characters relevant here (ASCII whitespace). -/
def isPySpace (c : Char) : Bool :=
  c = ' ' || c = '\t' || c = '\n' || c = '\r' || c = Char.ofNat 11 || c = Char.ofNat 12

/-- Strip leading and trailing whitespace. -/
def pstrip (l : List Char) : List Char :=
  ((l.dropWhile isPySpace).reverse.dropWhile isPySpace).reverse

/-- One fighter record (`Fighter.__init__`, 20-25; strategy omitted: it is
written only by the later strategy phase). -/
structure FighterR where
  name : List Char
  description : List Char
  player : Nat
deriving DecidableEq

/-- The delivered outcome of `get_fighters` (229-276): `none` when aborted,
otherwise the full ledger. -/
abbrev PhaseOutcome := Option (List (Nat × FighterR))

/-- State of one collection phase: fixed audience (`participants`), the
submissions ledger, the `aborted` flag, the `completed` event, and the
outcome once the awaiting coroutine has resumed. -/
structure PhaseState where
  participants : List Nat
  submissions : List (Nat × FighterR)
  aborted : Bool
  completedEv : Bool
  delivered : Option PhaseOutcome
deriving DecidableEq

/-- A phase as created by `FighterCreator.__init__` (198-208) once the prompt
message was sent successfully. -/
def initPhase (roster : List Nat) : PhaseState :=
  { participants := roster, submissions := [], aborted := false,
    completedEv := false, delivered := none }

/-- Keys of the ledger. -/
def ledgerKeys (subs : List (Nat × FighterR)) : List Nat :=
  subs.map Prod.fst

/-- Result codes of a submission attempt, per the branches of
`FighterModal.on_submit` (315-365). -/
inductive SubmitResult where
  | accepted
  | rejectedNotParticipant
  | rejectedDuplicate
  | rejectedEmpty
deriving DecidableEq

/-- `FighterModal.on_submit` (315-365): reject non-participants, then users who
already have a ledger entry, then empty (after strip) fields; otherwise insert
the stripped fighter into the ledger and, when no participant remains without
an entry, set the `completed` event.  Note there is no check of the `aborted`
flag or of whether `completed` was already set. -/
def onSubmit (s : PhaseState) (p : Nat) (name description : List Char) :
    PhaseState × SubmitResult :=
  if p ∉ s.participants then
    (s, SubmitResult.rejectedNotParticipant)
  else if p ∈ ledgerKeys s.submissions then
    (s, SubmitResult.rejectedDuplicate)
  else if pstrip name = [] ∨ pstrip description = [] then
    (s, SubmitResult.rejectedEmpty)
  else
    if s.participants.filter
        (fun q => q ∉ ledgerKeys (s.submissions ++ [(p, ⟨pstrip name, pstrip description, p⟩)]))
        = [] then
      ({ s with submissions := s.submissions ++ [(p, ⟨pstrip name, pstrip description, p⟩)],
                completedEv := true }, SubmitResult.accepted)
    else
      ({ s with submissions := s.submissions ++ [(p, ⟨pstrip name, pstrip description, p⟩)] },
        SubmitResult.accepted)

/-- `FighterCreator._abort` (278-289): set the `aborted` flag and the
`completed` event.  (The owner-only guard sits in `CreatorAbortButton.callback`,
630-643; this event is the effective `_abort()` call.) -/
def onAbort (s : PhaseState) : PhaseState :=
  { s with aborted := true, completedEv := true }

/-- The resumption of `get_fighters` after `await self.completed.wait()`
(265-276): only possible once the event is set and only once; the outcome is
`None` when the `aborted` flag is set at that moment, the ledger otherwise. -/
def deliverStep (s : PhaseState) : PhaseState :=
  if s.completedEv = true ∧ s.delivered = none then
    { s with delivered := some (if s.aborted then none else some s.submissions) }
  else s

/-- Phase events.  `submit` can arrive at any time while a participant holds an
open modal (aborting clears only the button view, not open modals), `abort` is
the owner pressing the abort button, `deliver` is the awaiting coroutine
resuming. -/
inductive PEvent where
  | submit (p : Nat) (name description : List Char)
  | abort
  | deliver
deriving DecidableEq

/-- One phase step. -/
def stepE (s : PhaseState) : PEvent → PhaseState
  | PEvent.submit p nm ds => (onSubmit s p nm ds).1
  | PEvent.abort => onAbort s
  | PEvent.deliver => deliverStep s

/-- Run a phase from creation through a list of events. -/
def runP (roster : List Nat) (es : List PEvent) : PhaseState :=
  es.foldl stepE (initPhase roster)

/-- Number of accepted submissions by participant `p` along a run starting in
`s` (for the at-most-once property). -/
def countAccepts (s : PhaseState) (es : List PEvent) (p : Nat) : Nat :=
  match es with
  | [] => 0
  | e :: rest =>
      (match e with
       | PEvent.submit q nm ds =>
           if q = p ∧ (onSubmit s q nm ds).2 = SubmitResult.accepted then 1 else 0
       | _ => 0)
      + countAccepts (stepE s e) rest p

/- ### The message splitter (utils.py 207-235, used by sendMessage 238-275)

The Python loop walks `current_pos` through `content`; here the loop state is
the still-unprocessed suffix `rest = content[current_pos:]`, so the window
`[current_pos, chunk_end)` of `content.rfind` becomes the window `[0, m)` of
`rest`, and the guard `last_newline > current_pos` becomes `0 < j` in suffix
coordinates.  The loop advances by at least one character per iteration when
`1 ≤ m`, so `content.length` steps of fuel always suffice; the theorems are
stated under that hypothesis. -/

/-- Python `content.rfind(c, 0, hi)` restricted to the newline character:
the largest index below `hi` holding a newline, or `-1`. -/
def pyRfindNl (l : List Char) : Nat → Int
  | 0 => -1
  | hi + 1 => if l.getD hi ' ' = '\n' then (hi : Int) else pyRfindNl l hi

/-- The `while current_pos < len(content)` loop of `_split_content`
(215-234), on the unprocessed suffix. -/
def splitLoop (m : Nat) : Nat → List Char → List (List Char)
  | 0, _ => []
  | fuel + 1, rest =>
      if rest.length = 0 then []
      else if rest.length ≤ m then [rest]
      else if 0 < pyRfindNl rest m then
        rest.take ((pyRfindNl rest m).toNat + 1)
          :: splitLoop m fuel (rest.drop ((pyRfindNl rest m).toNat + 1))
      else
        rest.take m :: splitLoop m fuel (rest.drop m)

/-- `_split_content(content, max_length)` (207-235). -/
def splitContent (content : List Char) (m : Nat) : List (List Char) :=
  if content.length ≤ m then [content]
  else splitLoop m content.length content

/-- The sequence of message payloads `sendMessage` (238-275) emits, in order:
the content itself when it fits in Discord's 2000-character limit, otherwise
the chunks of `_split_content`. -/
def sendMessagePayloads (content : List Char) : List (List Char) :=
  if 2000 < content.length then splitContent content 2000 else [content]

/- ### Auxiliary predicates and state abbreviations used by the proofs -/

/-- A session still counting down: `n` seconds elapsed, timer running, full
control set, not started, not aborted. -/
def formingAt (o T e : Nat) : SessionState :=
  { owner := o, participants := [o], timeout := T, elapsed := e,
    timerRunning := true, ui := allControls, started := false, abortedS := false }

/-- A session that has left `Forming` through the natural timeout: timer
stopped, view cleared, handed off to phase sequencing. -/
def startedAt (o T e : Nat) : SessionState :=
  { owner := o, participants := [o], timeout := T, elapsed := e,
    timerRunning := false, ui := [], started := true, abortedS := false }

/-- Once a session has left `Forming` (hand-off or abort), its view is empty
and its timer stopped. -/
def ClosedNoUI (s : SessionState) : Prop :=
  (s.started = true ∨ s.abortedS = true) → s.ui = [] ∧ s.timerRunning = false

/-- The reachable-state invariant of a collection phase:
1. if the `completed` event was set without an abort, every participant has a
   ledger entry;
2. ledger keys lie in the audience;
3. a delivered `Completed` outcome is a ledger that covers exactly the
   audience. -/
def PhaseInv (s : PhaseState) : Prop :=
  (s.completedEv = true → s.aborted = false →
     ∀ p ∈ s.participants, p ∈ ledgerKeys s.submissions) ∧
  (∀ p ∈ ledgerKeys s.submissions, p ∈ s.participants) ∧
  (∀ l, s.delivered = some (some l) →
     (∀ p ∈ s.participants, p ∈ ledgerKeys l) ∧ (∀ p ∈ ledgerKeys l, p ∈ s.participants))

/-! ## Theorems -/

/- ### Session countdown (C5) -/

theorem initS_eq_formingAt (o T : Nat) : initS o T = formingAt o T 0 := rfl

theorem tick_forming_of_lt (o T e : Nat) (h : e + 1 < T) :
    stepS (formingAt o T e) SEvent.tick = formingAt o T (e + 1) := by
  simp [stepS, formingAt, Nat.not_le.mpr h]

theorem tick_forming_of_ge (o T e : Nat) (h : T ≤ e + 1) :
    stepS (formingAt o T e) SEvent.tick = startedAt o T (e + 1) := by
  simp [stepS, formingAt, startedAt, h]

theorem tick_stuck (o T e : Nat) :
    stepS (startedAt o T e) SEvent.tick = startedAt o T e := by
  simp [stepS, startedAt]

theorem iter_tick_forming (o T : Nat) :
    ∀ n j, j + n < T →
      (List.replicate n SEvent.tick).foldl stepS (formingAt o T j) = formingAt o T (j + n) := by
  intro n
  induction n with
  | zero => intro j _; simp
  | succ k ih =>
      intro j h
      have hjk : j + 1 + k = j + (k + 1) := by omega
      rw [List.replicate_succ, List.foldl_cons, tick_forming_of_lt o T j (by omega),
        ih (j + 1) (by omega), hjk]

theorem iter_tick_stuck (o T e : Nat) :
    ∀ n, (List.replicate n SEvent.tick).foldl stepS (startedAt o T e) = startedAt o T e := by
  intro n
  induction n with
  | zero => simp
  | succ k ih => rw [List.replicate_succ, List.foldl_cons, tick_stuck, ih]

theorem runS_ticks_of_lt (o T n : Nat) (h : n < T) :
    runS o T (List.replicate n SEvent.tick) = formingAt o T n := by
  unfold runS
  rw [initS_eq_formingAt]
  simpa using iter_tick_forming o T n 0 (by omega)

theorem runS_ticks_timeout (o T : Nat) (hT : 1 ≤ T) :
    runS o T (List.replicate T SEvent.tick) = startedAt o T T := by
  obtain ⟨k, rfl⟩ : ∃ k, T = k + 1 := ⟨T - 1, by omega⟩
  unfold runS
  rw [initS_eq_formingAt, List.replicate_succ', List.foldl_append]
  have h0 : (0 : Nat) + k < k + 1 := by omega
  rw [show (List.replicate k SEvent.tick).foldl stepS (formingAt o (k + 1) 0)
        = formingAt o (k + 1) k by simpa using iter_tick_forming o (k + 1) k 0 h0]
  simpa using tick_forming_of_ge o (k + 1) k (by omega)

theorem runS_ticks_of_ge (o T n : Nat) (hT : 1 ≤ T) (h : T ≤ n) :
    runS o T (List.replicate n SEvent.tick) = startedAt o T T := by
  obtain ⟨m, rfl⟩ : ∃ m, n = T + m := ⟨n - T, by omega⟩
  unfold runS
  rw [List.replicate_add, List.foldl_append]
  have hT' : (List.replicate T SEvent.tick).foldl stepS (initS o T) = startedAt o T T :=
    runS_ticks_timeout o T hT
  rw [hT', iter_tick_stuck]

/-- Claim C5: for a session created with timeout `T` that is neither
force-started nor aborted (its event trace consists of ticks only), the tick
handler increments elapsed by 1 per tick, the hand-off to phase sequencing has
not fired at any point with fewer than `T` ticks (elapsed below `T`), it fires
at the tick that makes elapsed reach `T`, and whenever it has fired the elapsed
value is at least `T`. -/
theorem C5_countdown (o T n : Nat) (hT : 1 ≤ T) :
    (n < T → (runS o T (List.replicate n SEvent.tick)).started = false ∧
             (runS o T (List.replicate n SEvent.tick)).elapsed = n) ∧
    (runS o T (List.replicate T SEvent.tick)).started = true ∧
    (runS o T (List.replicate T SEvent.tick)).elapsed = T ∧
    ((runS o T (List.replicate n SEvent.tick)).started = true →
       T ≤ (runS o T (List.replicate n SEvent.tick)).elapsed) := by
  refine ⟨fun h => ?_, ?_, ?_, fun hs => ?_⟩
  · rw [runS_ticks_of_lt o T n h]; exact ⟨rfl, rfl⟩
  · rw [runS_ticks_timeout o T hT]; rfl
  · rw [runS_ticks_timeout o T hT]; rfl
  · by_cases h : n < T
    · rw [runS_ticks_of_lt o T n h] at hs
      simp [formingAt] at hs
    · rw [runS_ticks_of_ge o T n hT (by omega)]
      exact Nat.le_refl T

theorem C5_witness :
    (1 : Nat) ≤ 2 ∧
    (runS 1 2 (List.replicate 1 SEvent.tick)).started = false ∧
    (runS 1 2 (List.replicate 1 SEvent.tick)).elapsed = 1 ∧
    (runS 1 2 (List.replicate 2 SEvent.tick)).started = true ∧
    (runS 1 2 (List.replicate 2 SEvent.tick)).elapsed = 2 :=
  have h := C5_countdown 1 2 1 (by decide)
  ⟨by decide, (h.1 (by decide)).1, (h.1 (by decide)).2, h.2.1, h.2.2.1⟩

/- ### Sessions that have left Forming (C7, C6) -/

theorem joinCb_started (s : SessionState) (u : Nat) :
    (joinCb s u).started = s.started ∧ (joinCb s u).abortedS = s.abortedS := by
  unfold joinCb; split <;> exact ⟨rfl, rfl⟩

theorem leaveCb_started (s : SessionState) (u : Nat) :
    (leaveCb s u).started = s.started ∧ (leaveCb s u).abortedS = s.abortedS := by
  unfold leaveCb; split <;> exact ⟨rfl, rfl⟩

theorem stepS_closedNoUI {s : SessionState} (hs : ClosedNoUI s) (e : SEvent) :
    ClosedNoUI (stepS s e) := by
  cases e with
  | tick =>
      by_cases hr : s.timerRunning
      · by_cases hb : s.started = true ∨ s.abortedS = true
        · have := (hs hb).2
          rw [this] at hr
          exact absurd hr (by simp)
        · simp only [stepS, if_pos hr]
          split
          · intro _; exact ⟨rfl, rfl⟩
          · intro hcl; exact absurd hcl hb
      · simp only [stepS, if_neg hr]; exact hs
  | join u =>
      by_cases hui : Control.join ∈ s.ui
      · simp only [stepS, if_pos hui]
        intro hcl
        have hcs : s.started = true ∨ s.abortedS = true := by
          rcases hcl with h | h
          · exact Or.inl ((joinCb_started s u).1 ▸ h)
          · exact Or.inr ((joinCb_started s u).2 ▸ h)
        exact absurd hui (by simp [(hs hcs).1])
      · simp only [stepS, if_neg hui]; exact hs
  | leave u =>
      by_cases hui : Control.leave ∈ s.ui
      · simp only [stepS, if_pos hui]
        intro hcl
        have hcs : s.started = true ∨ s.abortedS = true := by
          rcases hcl with h | h
          · exact Or.inl ((leaveCb_started s u).1 ▸ h)
          · exact Or.inr ((leaveCb_started s u).2 ▸ h)
        exact absurd hui (by simp [(hs hcs).1])
      · simp only [stepS, if_neg hui]; exact hs
  | forceStart u =>
      by_cases hui : Control.start ∈ s.ui
      · simp only [stepS, if_pos hui]
        by_cases ho : u = s.owner
        · simp only [if_pos ho]; intro _; exact ⟨rfl, rfl⟩
        · simp only [if_neg ho]; exact hs
      · simp only [stepS, if_neg hui]; exact hs
  | abortReq u =>
      by_cases hui : Control.abortBtn ∈ s.ui
      · simp only [stepS, if_pos hui]
        by_cases ho : u = s.owner
        · simp only [if_pos ho]; intro _; exact ⟨rfl, rfl⟩
        · simp only [if_neg ho]; exact hs
      · simp only [stepS, if_neg hui]; exact hs

theorem foldl_closedNoUI :
    ∀ (es : List SEvent) (s : SessionState), ClosedNoUI s → ClosedNoUI (es.foldl stepS s) := by
  intro es
  induction es with
  | nil => intro s h; exact h
  | cons e rest ih => intro s h; exact ih _ (stepS_closedNoUI h e)

theorem runS_closedNoUI (o T : Nat) (es : List SEvent) : ClosedNoUI (runS o T es) := by
  unfold runS
  refine foldl_closedNoUI es (initS o T) ?_
  intro h
  rcases h with h | h <;> simp [initS] at h

/-- Claim C7 (corrected): once a session has left `Forming` (hand-off to phase
sequencing or abort), its view carries no join/leave controls any more, so in
the deliverable-event semantics no further join or leave request can reach the
session and the roster stays unchanged.  (The handlers themselves perform no
lifecycle check — see the counterexample — the code relies entirely on the
controls having been removed.) -/
theorem C7_after_forming (o T : Nat) (es : List SEvent) (u : Nat)
    (h : (runS o T es).started = true ∨ (runS o T es).abortedS = true) :
    stepS (runS o T es) (SEvent.join u) = runS o T es ∧
    stepS (runS o T es) (SEvent.leave u) = runS o T es := by
  have hui := (runS_closedNoUI o T es h).1
  constructor
  · simp [stepS, hui]
  · simp [stepS, hui]

theorem C7_witness :
    ((runS 1 60 [SEvent.forceStart 1]).started = true ∨
       (runS 1 60 [SEvent.forceStart 1]).abortedS = true) ∧
    stepS (runS 1 60 [SEvent.forceStart 1]) (SEvent.join 2) = runS 1 60 [SEvent.forceStart 1] ∧
    stepS (runS 1 60 [SEvent.forceStart 1]) (SEvent.leave 1) = runS 1 60 [SEvent.forceStart 1] :=
  ⟨Or.inl (by decide),
   (C7_after_forming 1 60 [SEvent.forceStart 1] 2 (Or.inl (by decide))).1,
   (C7_after_forming 1 60 [SEvent.forceStart 1] 1 (Or.inl (by decide))).2⟩

/-- Claim C7 counterexample: the claim says a join request delivered after the
session leaves `Forming` is rejected with the roster unchanged.  But
`JoinButton.callback` (546-558) contains no lifecycle check: invoked on a
force-started session (here via a click raced against the view-clearing edit),
it appends the user to the roster instead of rejecting. -/
theorem C7_cex :
    (runS 1 60 [SEvent.forceStart 1]).started = true ∧
    (joinCb (runS 1 60 [SEvent.forceStart 1]) 2).participants
      ≠ (runS 1 60 [SEvent.forceStart 1]).participants := by
  decide

/- ### Roster invariants under join/leave (C6) -/

/-- Claim C6 (corrected): while a session is open, `join` always preserves
"roster non-empty and owner is a member", and `leave` preserves it whenever the
leaving user is not the owner.  (The owner's own leave is not guarded — see the
counterexample.) -/
theorem C6_roster_preserved (s : SessionState) (u : Nat)
    (ho : s.owner ∈ s.participants) :
    (s.owner ∈ (joinCb s u).participants ∧ (joinCb s u).participants ≠ []) ∧
    (u ≠ s.owner → s.owner ∈ (leaveCb s u).participants ∧ (leaveCb s u).participants ≠ []) := by
  constructor
  · unfold joinCb
    split
    · exact ⟨ho, List.ne_nil_of_mem ho⟩
    · have hmem : s.owner ∈ s.participants ++ [u] := List.mem_append_left _ ho
      exact ⟨hmem, List.ne_nil_of_mem hmem⟩
  · intro hu
    unfold leaveCb
    split
    · have hmem : s.owner ∈ s.participants.erase u :=
        (List.mem_erase_of_ne (Ne.symm hu)).mpr ho
      exact ⟨hmem, List.ne_nil_of_mem hmem⟩
    · exact ⟨ho, List.ne_nil_of_mem ho⟩

theorem C6_witness :
    (initS 1 60).owner ∈ (initS 1 60).participants ∧
    (2 : Nat) ≠ (initS 1 60).owner ∧
    ((initS 1 60).owner ∈ (joinCb (initS 1 60) 2).participants ∧
       (joinCb (initS 1 60) 2).participants ≠ []) ∧
    ((initS 1 60).owner ∈ (leaveCb (initS 1 60) 2).participants ∧
       (leaveCb (initS 1 60) 2).participants ≠ []) :=
  ⟨by decide, by decide,
   (C6_roster_preserved (initS 1 60) 2 (by decide)).1,
   (C6_roster_preserved (initS 1 60) 2 (by decide)).2 (by decide)⟩

/-- Claim C6 counterexample: on a freshly opened session (still `Forming`,
neither started nor aborted) whose roster is just the owner,
`LeaveButton.callback` (566-578) lets the owner leave: the roster becomes
empty and no longer contains the owner, breaking both halves of the claimed
invariant. -/
theorem C6_cex :
    (initS 1 60).started = false ∧
    (initS 1 60).abortedS = false ∧
    (initS 1 60).owner ∈ (initS 1 60).participants ∧
    (leaveCb (initS 1 60) 1).participants = [] := by
  decide

/- ### Save failure versus narrative broadcast (C8) -/

/-- Claim C8 (corrected): the narrative is broadcast exactly when the
result-store save returns normally.  `save_battle_result` (utils.py 98-106) has
no exception handler and `_async_timeout` (840-842) calls it *before* the final
`sendMessage`, so a raised persistence failure propagates to the caller's
catch-all and the narrative is never sent. -/
theorem C8_broadcast_iff_save_ok (r : Except String Unit) :
    narrativeBroadcast r = saveSucceeded r := by
  cases r <;> rfl

/-- Claim C8 counterexample: a failing save (the `Except.error` case of the
modelled file write) yields no narrative broadcast, contradicting the claim
that the narrative is sent whether or not persistence succeeds. -/
theorem C8_cex :
    saveSucceeded (Except.error "disk write failed") = false ∧
    narrativeBroadcast (Except.error "disk write failed") = false := by
  exact ⟨rfl, rfl⟩

/- ### Temperature independence of evaluateSingle (C10) -/

/-- Claim C10: `PromptHandler.evaluateSingle` ignores its `temperature`
argument — two calls differing only in temperature hand the AI backend the
identical request, because the literal `1.2` is forwarded regardless. -/
theorem C10_temperature_independent (sp p : String) (t1 t2 : ℚ) :
    evaluateSingle sp p t1 = evaluateSingle sp p t2 := rfl

/- ### Collection phase: structural lemmas -/

theorem deliverStep_participants (s : PhaseState) :
    (deliverStep s).participants = s.participants := by
  unfold deliverStep; split <;> rfl

theorem deliverStep_submissions (s : PhaseState) :
    (deliverStep s).submissions = s.submissions := by
  unfold deliverStep; split <;> rfl

theorem onSubmit_participants (s : PhaseState) (p : Nat) (nm ds : List Char) :
    (onSubmit s p nm ds).1.participants = s.participants := by
  unfold onSubmit
  split
  · rfl
  · split
    · rfl
    · split
      · rfl
      · split <;> rfl

theorem onSubmit_delivered (s : PhaseState) (p : Nat) (nm ds : List Char) :
    (onSubmit s p nm ds).1.delivered = s.delivered := by
  unfold onSubmit
  split
  · rfl
  · split
    · rfl
    · split
      · rfl
      · split <;> rfl

theorem onSubmit_aborted (s : PhaseState) (p : Nat) (nm ds : List Char) :
    (onSubmit s p nm ds).1.aborted = s.aborted := by
  unfold onSubmit
  split
  · rfl
  · split
    · rfl
    · split
      · rfl
      · split <;> rfl

theorem stepE_participants (s : PhaseState) (e : PEvent) :
    (stepE s e).participants = s.participants := by
  cases e with
  | submit p nm ds => exact onSubmit_participants s p nm ds
  | abort => rfl
  | deliver => exact deliverStep_participants s

theorem runP_participants (roster : List Nat) (es : List PEvent) :
    (runP roster es).participants = roster := by
  unfold runP
  have h : ∀ (es : List PEvent) (s : PhaseState),
      (es.foldl stepE s).participants = s.participants := by
    intro es
    induction es with
    | nil => intro s; rfl
    | cons e rest ih => intro s; rw [List.foldl_cons, ih, stepE_participants]
  exact h es (initPhase roster)

theorem onSubmit_keys_mono (s : PhaseState) (p : Nat) (nm ds : List Char) {q : Nat}
    (h : q ∈ ledgerKeys s.submissions) :
    q ∈ ledgerKeys (onSubmit s p nm ds).1.submissions := by
  unfold onSubmit
  split
  · exact h
  · split
    · exact h
    · split
      · exact h
      · split <;>
          · show q ∈ ledgerKeys (s.submissions ++ _)
            unfold ledgerKeys at *
            rw [List.map_append]
            exact List.mem_append_left _ h

theorem stepE_keys_mono (s : PhaseState) (e : PEvent) {q : Nat}
    (h : q ∈ ledgerKeys s.submissions) :
    q ∈ ledgerKeys (stepE s e).submissions := by
  cases e with
  | submit p nm ds => exact onSubmit_keys_mono s p nm ds h
  | abort => exact h
  | deliver =>
      show q ∈ ledgerKeys (deliverStep s).submissions
      rw [deliverStep_submissions]
      exact h

theorem stepE_delivered_frozen (s : PhaseState) (e : PEvent) (a : PhaseOutcome)
    (h : s.delivered = some a) : (stepE s e).delivered = some a := by
  cases e with
  | submit p nm ds =>
      show (onSubmit s p nm ds).1.delivered = some a
      rw [onSubmit_delivered]; exact h
  | abort => exact h
  | deliver =>
      show (deliverStep s).delivered = some a
      unfold deliverStep
      rw [if_neg]
      · exact h
      · simp [h]

theorem foldl_delivered_frozen (es : List PEvent) (s : PhaseState) (a : PhaseOutcome)
    (h : s.delivered = some a) : (es.foldl stepE s).delivered = some a := by
  induction es generalizing s with
  | nil => exact h
  | cons e rest ih => exact ih _ (stepE_delivered_frozen s e a h)

/- ### Collection phase: reachable-state invariant -/

theorem onSubmit_cases (s : PhaseState) (p : Nat) (nm ds : List Char) :
    ((onSubmit s p nm ds).1 = s ∧ (onSubmit s p nm ds).2 ≠ SubmitResult.accepted) ∨
    ((onSubmit s p nm ds).2 = SubmitResult.accepted ∧
     (onSubmit s p nm ds).1.submissions
       = s.submissions ++ [(p, ⟨pstrip nm, pstrip ds, p⟩)] ∧
     p ∉ ledgerKeys s.submissions ∧ p ∈ s.participants) := by
  unfold onSubmit
  split
  next hp => exact Or.inl ⟨rfl, by simp⟩
  next hp =>
    split
    next hk => exact Or.inl ⟨rfl, by simp⟩
    next hk =>
      split
      next he => exact Or.inl ⟨rfl, by simp⟩
      next he =>
        split
        next hcov => exact Or.inr ⟨rfl, rfl, hk, not_not.mp hp⟩
        next hcov => exact Or.inr ⟨rfl, rfl, hk, not_not.mp hp⟩

theorem stepE_phaseInv {s : PhaseState} (hs : PhaseInv s) (e : PEvent) :
    PhaseInv (stepE s e) := by
  cases e with
  | submit p nm ds =>
      show PhaseInv (onSubmit s p nm ds).1
      unfold onSubmit
      split
      next hp => exact hs
      next hp =>
        split
        next hk => exact hs
        next hk =>
          split
          next he => exact hs
          next he =>
            split
            next hcov =>
              refine ⟨fun _ hab q hq => ?_, fun q hq => ?_, hs.2.2⟩
              · have := List.filter_eq_nil_iff.mp hcov q hq
                simpa using this
              · unfold ledgerKeys at hq
                rw [List.map_append] at hq
                rcases List.mem_append.mp hq with h | h
                · exact hs.2.1 q h
                · have : q = p := by simpa using h
                  subst this
                  exact not_not.mp hp
            next hcov =>
              refine ⟨fun hc hab q hq => ?_, fun q hq => ?_, hs.2.2⟩
              · have := hs.1 hc hab q hq
                unfold ledgerKeys at this ⊢
                rw [List.map_append]
                exact List.mem_append_left _ this
              · unfold ledgerKeys at hq
                rw [List.map_append] at hq
                rcases List.mem_append.mp hq with h | h
                · exact hs.2.1 q h
                · have : q = p := by simpa using h
                  subst this
                  exact not_not.mp hp
  | abort =>
      refine ⟨fun _ hab => ?_, hs.2.1, hs.2.2⟩
      exact nomatch hab
  | deliver =>
      show PhaseInv (deliverStep s)
      unfold deliverStep
      split
      next hguard =>
        refine ⟨hs.1, hs.2.1, fun l hl => ?_⟩
        by_cases hab : s.aborted = true
        · rw [if_pos hab] at hl
          simp at hl
        · rw [if_neg hab] at hl
          have hl' : s.submissions = l := by simpa using hl
          subst hl'
          have hab' : s.aborted = false := by simpa using hab
          exact ⟨hs.1 hguard.1 hab', hs.2.1⟩
      next hguard => exact hs

theorem runP_phaseInv (roster : List Nat) (es : List PEvent) :
    PhaseInv (runP roster es) := by
  unfold runP
  have h : ∀ (es : List PEvent) (s : PhaseState), PhaseInv s → PhaseInv (es.foldl stepE s) := by
    intro es
    induction es with
    | nil => intro s h; exact h
    | cons e rest ih => intro s h; exact ih _ (stepE_phaseInv h e)
  refine h es (initPhase roster) ⟨fun hc _ => ?_, fun q hq => ?_, fun l hl => ?_⟩
  · exact nomatch hc
  · simp [initPhase, ledgerKeys] at hq
  · simp [initPhase] at hl

/- ### At-most-one accepted submission per participant -/

theorem countAccepts_zero_of_mem :
    ∀ (es : List PEvent) (s : PhaseState) (p : Nat),
      p ∈ ledgerKeys s.submissions → countAccepts s es p = 0 := by
  intro es
  induction es with
  | nil => intro s p _; rfl
  | cons e rest ih =>
      intro s p hp
      cases e with
      | submit q nm ds =>
          show (if q = p ∧ (onSubmit s q nm ds).2 = SubmitResult.accepted then 1 else 0)
              + countAccepts (stepE s (PEvent.submit q nm ds)) rest p = 0
          have hne : ¬(q = p ∧ (onSubmit s q nm ds).2 = SubmitResult.accepted) := by
            rintro ⟨rfl, hacc⟩
            rcases onSubmit_cases s q nm ds with ⟨_, hna⟩ | ⟨_, _, hnk, _⟩
            · exact hna hacc
            · exact hnk hp
          rw [if_neg hne, Nat.zero_add]
          exact ih _ p (stepE_keys_mono s _ hp)
      | abort =>
          show 0 + countAccepts (stepE s PEvent.abort) rest p = 0
          rw [Nat.zero_add]
          exact ih _ p (stepE_keys_mono s _ hp)
      | deliver =>
          show 0 + countAccepts (stepE s PEvent.deliver) rest p = 0
          rw [Nat.zero_add]
          exact ih _ p (stepE_keys_mono s _ hp)

theorem countAccepts_le_one :
    ∀ (es : List PEvent) (s : PhaseState) (p : Nat), countAccepts s es p ≤ 1 := by
  intro es
  induction es with
  | nil => intro s p; exact Nat.zero_le 1
  | cons e rest ih =>
      intro s p
      cases e with
      | submit q nm ds =>
          show (if q = p ∧ (onSubmit s q nm ds).2 = SubmitResult.accepted then 1 else 0)
              + countAccepts (stepE s (PEvent.submit q nm ds)) rest p ≤ 1
          by_cases hc : q = p ∧ (onSubmit s q nm ds).2 = SubmitResult.accepted
          · rw [if_pos hc]
            have hacc := hc.2
            have hqp := hc.1
            have hmem : p ∈ ledgerKeys (stepE s (PEvent.submit q nm ds)).submissions := by
              show p ∈ ledgerKeys (onSubmit s q nm ds).1.submissions
              rcases onSubmit_cases s q nm ds with ⟨_, hna⟩ | ⟨_, hsub, _, _⟩
              · exact absurd hacc hna
              · rw [hsub]
                unfold ledgerKeys
                rw [List.map_append]
                refine List.mem_append_right _ ?_
                simp [hqp]
            rw [countAccepts_zero_of_mem rest _ p hmem]
          · rw [if_neg hc, Nat.zero_add]
            exact ih _ p
      | abort =>
          show 0 + countAccepts (stepE s PEvent.abort) rest p ≤ 1
          rw [Nat.zero_add]
          exact ih _ p
      | deliver =>
          show 0 + countAccepts (stepE s PEvent.deliver) rest p ≤ 1
          rw [Nat.zero_add]
          exact ih _ p

/-- Claim C4: on any reachable phase state, a submission by a participant who
already holds a ledger entry is rejected as a duplicate with the state (hence
the ledger, the flags, and the `Open` status) unchanged; a submission by a
user outside the audience is rejected as not-a-participant with the state
unchanged; and along any event trace at most one submission by any given
participant is ever accepted. -/
theorem C4_at_most_once (roster : List Nat) (es : List PEvent) (p : Nat) (nm ds : List Char) :
    (p ∈ ledgerKeys (runP roster es).submissions →
       onSubmit (runP roster es) p nm ds = (runP roster es, SubmitResult.rejectedDuplicate)) ∧
    (p ∉ (runP roster es).participants →
       onSubmit (runP roster es) p nm ds = (runP roster es, SubmitResult.rejectedNotParticipant)) ∧
    countAccepts (initPhase roster) es p ≤ 1 := by
  refine ⟨fun hk => ?_, fun hnp => ?_, countAccepts_le_one es (initPhase roster) p⟩
  · have hp : p ∈ (runP roster es).participants := (runP_phaseInv roster es).2.1 p hk
    unfold onSubmit
    rw [if_neg (not_not_intro hp), if_pos hk]
  · unfold onSubmit
    rw [if_pos hnp]

theorem C4_witness :
    (1 ∈ ledgerKeys (runP [1, 2] [PEvent.submit 1 ['a'] ['b']]).submissions) ∧
    onSubmit (runP [1, 2] [PEvent.submit 1 ['a'] ['b']]) 1 ['c'] ['d']
      = (runP [1, 2] [PEvent.submit 1 ['a'] ['b']], SubmitResult.rejectedDuplicate) ∧
    (3 ∉ (runP [1, 2] [PEvent.submit 1 ['a'] ['b']]).participants) ∧
    onSubmit (runP [1, 2] [PEvent.submit 1 ['a'] ['b']]) 3 ['c'] ['d']
      = (runP [1, 2] [PEvent.submit 1 ['a'] ['b']], SubmitResult.rejectedNotParticipant) ∧
    countAccepts (initPhase [1, 2]) [PEvent.submit 1 ['a'] ['b']] 1 ≤ 1 :=
  ⟨by decide,
   (C4_at_most_once [1, 2] [PEvent.submit 1 ['a'] ['b']] 1 ['c'] ['d']).1 (by decide),
   by decide,
   (C4_at_most_once [1, 2] [PEvent.submit 1 ['a'] ['b']] 3 ['c'] ['d']).2.1 (by decide),
   (C4_at_most_once [1, 2] [PEvent.submit 1 ['a'] ['b']] 1 ['c'] ['d']).2.2⟩

/- ### Submissions after the phase closed (C1) -/

/-- Claim C1 (corrected): on any reachable phase state in which completion was
signaled *without* an abort (the `completed` event is set and the `aborted`
flag is clear), every further submission attempt is rejected (as duplicate or
not-a-participant) and the whole state — in particular the ledger — is
unchanged.  This holds because natural completion implies the ledger already
covers the roster; it does *not* hold after an abort, where the handlers'
missing closed-state check lets a roster member without an entry be accepted
(see the counterexample). -/
theorem C1_closed_rejects (roster : List Nat) (es : List PEvent) (p : Nat) (nm ds : List Char)
    (hc : (runP roster es).completedEv = true)
    (ha : (runP roster es).aborted = false) :
    (onSubmit (runP roster es) p nm ds).1 = runP roster es ∧
    (onSubmit (runP roster es) p nm ds).2 ≠ SubmitResult.accepted := by
  by_cases hp : p ∈ (runP roster es).participants
  · have hk : p ∈ ledgerKeys (runP roster es).submissions :=
      (runP_phaseInv roster es).1 hc ha p hp
    have key : onSubmit (runP roster es) p nm ds
        = (runP roster es, SubmitResult.rejectedDuplicate) := by
      unfold onSubmit
      rw [if_neg (not_not_intro hp), if_pos hk]
    rw [key]
    exact ⟨rfl, by simp⟩
  · have key : onSubmit (runP roster es) p nm ds
        = (runP roster es, SubmitResult.rejectedNotParticipant) := by
      unfold onSubmit
      rw [if_pos hp]
    rw [key]
    exact ⟨rfl, by simp⟩

theorem C1_witness :
    (runP [1] [PEvent.submit 1 ['a'] ['b']]).completedEv = true ∧
    (runP [1] [PEvent.submit 1 ['a'] ['b']]).aborted = false ∧
    ((onSubmit (runP [1] [PEvent.submit 1 ['a'] ['b']]) 1 ['c'] ['d']).1
        = runP [1] [PEvent.submit 1 ['a'] ['b']] ∧
     (onSubmit (runP [1] [PEvent.submit 1 ['a'] ['b']]) 1 ['c'] ['d']).2
        ≠ SubmitResult.accepted) :=
  ⟨by decide, by decide,
   C1_closed_rejects [1] [PEvent.submit 1 ['a'] ['b']] 1 ['c'] ['d'] (by decide) (by decide)⟩

/-- Claim C1 counterexample: the claim says that once abort is signaled no
further submission is accepted and the ledger is unchanged.  On roster
`[1, 2]`, after participant 1 submits and the phase is aborted (abort flag and
completion event both set), a submission by participant 2 — whose modal is
still open, since `_abort` clears only the button view — is *accepted* by
`FighterModal.on_submit` and the ledger grows. -/
theorem C1_cex :
    (runP [1, 2] [PEvent.submit 1 ['a'] ['b'], PEvent.abort]).aborted = true ∧
    (runP [1, 2] [PEvent.submit 1 ['a'] ['b'], PEvent.abort]).completedEv = true ∧
    (onSubmit (runP [1, 2] [PEvent.submit 1 ['a'] ['b'], PEvent.abort]) 2 ['c'] ['d']).2
      = SubmitResult.accepted ∧
    (onSubmit (runP [1, 2] [PEvent.submit 1 ['a'] ['b'], PEvent.abort]) 2 ['c'] ['d']).1.submissions
      ≠ (runP [1, 2] [PEvent.submit 1 ['a'] ['b'], PEvent.abort]).submissions := by
  decide

/- ### Exactly one terminal outcome (C2) -/

/-- Claim C2 (corrected): the outcome of a phase is delivered exactly once —
once `delivered` holds a value, no continuation of the trace can change or
re-deliver it — and repeated `abort()` calls collapse to a single one (the
second is a state no-op).  However, when abort races natural completion the
winner is *not* the first signal to occur: the outcome is decided by the
`aborted` flag at the moment the awaiting coroutine resumes, so an abort that
runs after the completing submission but before delivery wins (see the
counterexample). -/
theorem C2_single_outcome (roster : List Nat) (es more : List PEvent) (a : PhaseOutcome)
    (hd : (runP roster es).delivered = some a) :
    (runP roster (es ++ more)).delivered = some a ∧
    onAbort (onAbort (runP roster es)) = onAbort (runP roster es) := by
  constructor
  · unfold runP at hd ⊢
    rw [List.foldl_append]
    exact foldl_delivered_frozen more _ a hd
  · rfl

theorem C2_witness :
    (runP [1] [PEvent.submit 1 ['a'] ['b'], PEvent.deliver]).delivered
      = some (some [(1, FighterR.mk ['a'] ['b'] 1)]) ∧
    ((runP [1] ([PEvent.submit 1 ['a'] ['b'], PEvent.deliver] ++ [PEvent.abort])).delivered
      = some (some [(1, FighterR.mk ['a'] ['b'] 1)]) ∧
     onAbort (onAbort (runP [1] [PEvent.submit 1 ['a'] ['b'], PEvent.deliver]))
      = onAbort (runP [1] [PEvent.submit 1 ['a'] ['b'], PEvent.deliver])) :=
  ⟨by decide,
   C2_single_outcome [1] [PEvent.submit 1 ['a'] ['b'], PEvent.deliver] [PEvent.abort]
     (some [(1, FighterR.mk ['a'] ['b'] 1)]) (by decide)⟩

/-- Claim C2 counterexample: the claim says that when `abort()` races natural
completion, the first to occur wins.  On roster `[1, 2]`, after both
participants submit, natural completion has been signaled (`completed` set,
`aborted` clear); an abort executed afterwards — before the awaiting
coroutine resumes — nevertheless makes the delivered outcome the abort
sentinel `none`, so the *later* signal won. -/
theorem C2_cex :
    (runP [1, 2] [PEvent.submit 1 ['a'] ['b'], PEvent.submit 2 ['c'] ['d']]).completedEv = true ∧
    (runP [1, 2] [PEvent.submit 1 ['a'] ['b'], PEvent.submit 2 ['c'] ['d']]).aborted = false ∧
    (runP [1, 2] [PEvent.submit 1 ['a'] ['b'], PEvent.submit 2 ['c'] ['d'],
        PEvent.abort, PEvent.deliver]).delivered = some none := by
  decide

/- ### Completion versus full ledger (C3) -/

/-- Claim C3 (corrected): whenever a phase delivers the `Completed` outcome,
the delivered ledger covers exactly the roster (completion was signaled on the
submission that covered the last remaining participant, never while one was
missing), and once an outcome is delivered no continuation can also deliver
the `Aborted` one, so no phase reaches both terminal states.  The converse
direction of the claimed "exactly when" fails: a full ledger does not force
`Completed`, because an abort executed before delivery yields `Aborted`
despite ledger keys = roster (see the counterexample). -/
theorem C3_completed_coverage (roster : List Nat) (es : List PEvent)
    (l : List (Nat × FighterR))
    (hd : (runP roster es).delivered = some (some l)) :
    (∀ p ∈ roster, p ∈ ledgerKeys l) ∧
    (∀ p ∈ ledgerKeys l, p ∈ roster) ∧
    ∀ more, (runP roster (es ++ more)).delivered ≠ some none := by
  have hroster := runP_participants roster es
  have h3 := (runP_phaseInv roster es).2.2 l hd
  refine ⟨fun p hp => ?_, fun p hp => ?_, fun more heq => ?_⟩
  · exact h3.1 p (by rw [hroster]; exact hp)
  · have := h3.2 p hp
    rwa [hroster] at this
  · have hfroz : (runP roster (es ++ more)).delivered = some (some l) := by
      unfold runP at hd ⊢
      rw [List.foldl_append]
      exact foldl_delivered_frozen more _ _ hd
    rw [hfroz] at heq
    simp at heq

theorem C3_witness :
    (runP [1] [PEvent.submit 1 ['e'] ['f'], PEvent.deliver]).delivered
      = some (some [(1, FighterR.mk ['e'] ['f'] 1)]) ∧
    ((∀ p ∈ [1], p ∈ ledgerKeys [(1, FighterR.mk ['e'] ['f'] 1)]) ∧
     (∀ p ∈ ledgerKeys [(1, FighterR.mk ['e'] ['f'] 1)], p ∈ [1]) ∧
     ∀ more, (runP [1] ([PEvent.submit 1 ['e'] ['f'], PEvent.deliver] ++ more)).delivered
       ≠ some none) :=
  ⟨by decide,
   C3_completed_coverage [1] [PEvent.submit 1 ['e'] ['f'], PEvent.deliver]
     [(1, FighterR.mk ['e'] ['f'] 1)] (by decide)⟩

/-- Claim C3 counterexample: the claim says a phase transitions to `Completed`
exactly when the ledger keys equal the roster.  On roster `[1, 2]`, after both
participants submit the ledger covers the roster, yet an abort before the
awaiting coroutine resumes makes the phase deliver the `Aborted` outcome —
full ledger without `Completed`, refuting the right-to-left direction. -/
theorem C3_cex :
    (∀ p ∈ [1, 2], p ∈ ledgerKeys (runP [1, 2] [PEvent.submit 1 ['a'] ['b'],
        PEvent.submit 2 ['c'] ['d'], PEvent.abort, PEvent.deliver]).submissions) ∧
    (runP [1, 2] [PEvent.submit 1 ['a'] ['b'], PEvent.submit 2 ['c'] ['d'],
        PEvent.abort, PEvent.deliver]).delivered = some none := by
  decide

/- ### The message splitter preserves content (C9) -/

theorem pyRfindNl_lt_int (l : List Char) : ∀ hi : Nat, pyRfindNl l hi < (hi : Int) := by
  intro hi
  induction hi with
  | zero =>
      show (-1 : Int) < ((0 : Nat) : Int)
      decide
  | succ k ih =>
      show (if l.getD k ' ' = '\n' then (k : Int) else pyRfindNl l k) < ((k + 1 : Nat) : Int)
      split
      · push_cast
        omega
      · have := ih
        push_cast
        omega

theorem pyRfindNl_toNat_lt (l : List Char) (hi : Nat) (h : 0 < pyRfindNl l hi) :
    (pyRfindNl l hi).toNat < hi := by
  have h2 := pyRfindNl_lt_int l hi
  omega

theorem splitLoop_flatten (m : Nat) (hm : 1 ≤ m) :
    ∀ (fuel : Nat) (rest : List Char), rest.length ≤ fuel →
      (splitLoop m fuel rest).flatten = rest := by
  intro fuel
  induction fuel with
  | zero =>
      intro rest h
      have : rest = [] := List.length_eq_zero.mp (Nat.le_zero.mp h)
      subst this
      rfl
  | succ k ih =>
      intro rest h
      simp only [splitLoop]
      by_cases h0 : rest.length = 0
      · rw [if_pos h0]
        have : rest = [] := List.length_eq_zero.mp h0
        subst this
        rfl
      · rw [if_neg h0]
        by_cases h1 : rest.length ≤ m
        · rw [if_pos h1]
          simp
        · rw [if_neg h1]
          by_cases h2 : 0 < pyRfindNl rest m
          · rw [if_pos h2, List.flatten_cons]
            have hlen : (rest.drop ((pyRfindNl rest m).toNat + 1)).length ≤ k := by
              rw [List.length_drop]
              omega
            rw [ih _ hlen, List.take_append_drop]
          · rw [if_neg h2, List.flatten_cons]
            have hlen : (rest.drop m).length ≤ k := by
              rw [List.length_drop]
              omega
            rw [ih _ hlen, List.take_append_drop]

theorem splitLoop_chunk_le (m : Nat) :
    ∀ (fuel : Nat) (rest : List Char), ∀ c ∈ splitLoop m fuel rest, c.length ≤ m := by
  intro fuel
  induction fuel with
  | zero =>
      intro rest c hc
      simp [splitLoop] at hc
  | succ k ih =>
      intro rest c hc
      simp only [splitLoop] at hc
      by_cases h0 : rest.length = 0
      · rw [if_pos h0] at hc
        simp at hc
      · rw [if_neg h0] at hc
        by_cases h1 : rest.length ≤ m
        · rw [if_pos h1] at hc
          have : c = rest := by simpa using hc
          subst this
          exact h1
        · rw [if_neg h1] at hc
          by_cases h2 : 0 < pyRfindNl rest m
          · rw [if_pos h2] at hc
            rcases List.mem_cons.mp hc with rfl | hcr
            · rw [List.length_take]
              have := pyRfindNl_toNat_lt rest m h2
              omega
            · exact ih _ c hcr
          · rw [if_neg h2] at hc
            rcases List.mem_cons.mp hc with rfl | hcr
            · rw [List.length_take]
              omega
            · exact ih _ c hcr

theorem splitContent_flatten (s : List Char) (m : Nat) (hm : 1 ≤ m) :
    (splitContent s m).flatten = s := by
  unfold splitContent
  split
  · simp
  · exact splitLoop_flatten m hm s.length s (Nat.le_refl _)

theorem splitContent_chunk_le (s : List Char) (m : Nat) :
    ∀ c ∈ splitContent s m, c.length ≤ m := by
  intro c hc
  unfold splitContent at hc
  split at hc
  next h =>
    have : c = s := by simpa using hc
    subst this
    exact h
  next h => exact splitLoop_chunk_le m s.length s c hc

/-- Claim C9: for every string `s` and chunk limit `m ≥ 1`, `_split_content`
returns chunks each of length at most `m` whose in-order concatenation is
exactly `s`; consequently the payload sequence `sendMessage` emits when
splitting an over-long message concatenates back to the original content —
nothing is dropped or reordered. -/
theorem C9_split_preserves (s : List Char) (m : Nat) (hm : 1 ≤ m) :
    (splitContent s m).flatten = s ∧
    (∀ c ∈ splitContent s m, c.length ≤ m) ∧
    (sendMessagePayloads s).flatten = s := by
  refine ⟨splitContent_flatten s m hm, splitContent_chunk_le s m, ?_⟩
  unfold sendMessagePayloads
  split
  · exact splitContent_flatten s 2000 (by omega)
  · simp

theorem C9_witness :
    (1 : Nat) ≤ 4 ∧
    ((splitContent ['a', 'b', '\n', 'c', 'd', 'e', 'f', '\n', 'g'] 4).flatten
        = ['a', 'b', '\n', 'c', 'd', 'e', 'f', '\n', 'g'] ∧
     (∀ c ∈ splitContent ['a', 'b', '\n', 'c', 'd', 'e', 'f', '\n', 'g'] 4, c.length ≤ 4) ∧
     (sendMessagePayloads ['a', 'b', '\n', 'c', 'd', 'e', 'f', '\n', 'g']).flatten
        = ['a', 'b', '\n', 'c', 'd', 'e', 'f', '\n', 'g']) :=
  ⟨by decide, C9_split_preserves ['a', 'b', '\n', 'c', 'd', 'e', 'f', '\n', 'g'] 4 (by decide)⟩
